import Mathlib

/-!
Shallow embedding of `src/index.js` (webp-conv).

The embedding covers the parts of the source that the verified properties
are about: the JavaScript string primitives the source uses (`indexOf`,
`lastIndexOf`, `split(" ")`, `parseFloat` NaN-ness, `substr`,
`toLowerCase`), the stderr classifier `hack_IsErrorAnError`
(lines 162-175), command-line flag detection `checkArgsForFlag`
(lines 197-199), the input-file extension filter (lines 82-87), and a
small-step model of the batch loop of `main` (lines 95-153) with its
polling admission gate (lines 107-109, 183-191).

JavaScript `undefined` is modelled as `none` of an `Option`; machine
numbers that the source uses as counters and exit codes are modelled as
`Int` (they stay far from any overflow).
-/

namespace WebpConv

/-- Occurrence test at the start of a string: `sub` occurs at position 0 of
`hay`. Used to model JS `indexOf`/`lastIndexOf`, which search for `sub` at
each position. -/
def matchesAt : List Char → List Char → Bool
  | _, [] => true
  | [], _ :: _ => false
  | h :: hs, c :: cs => h == c && matchesAt hs cs

/-- First index `≥ i` at which `sub` occurs in the remaining hay, scanning
left to right; `none` if it never occurs. -/
def indexOfFrom (sub : List Char) : List Char → Nat → Option Nat
  | [], i => if matchesAt [] sub then some i else none
  | h :: t, i => if matchesAt (h :: t) sub then some i else indexOfFrom sub t (i + 1)

/-- JS `hay.indexOf(sub)`: index of the first occurrence of `sub` in `hay`,
or `-1` if `sub` does not occur. -/
def jsIndexOf (hay sub : List Char) : Int :=
  match indexOfFrom sub hay 0 with
  | some n => (n : Int)
  | none => -1

/-- Scan accumulating the rightmost occurrence index of `sub` seen so far. -/
def lastIndexOfFrom (sub : List Char) : List Char → Nat → Option Nat → Option Nat
  | [], i, best => if matchesAt [] sub then some i else best
  | h :: t, i, best =>
    lastIndexOfFrom sub t (i + 1) (if matchesAt (h :: t) sub then some i else best)

/-- JS `hay.lastIndexOf(sub)`: index of the last occurrence of `sub` in
`hay`, or `-1` if `sub` does not occur. -/
def jsLastIndexOf (hay sub : List Char) : Int :=
  match lastIndexOfFrom sub hay 0 none with
  | some n => (n : Int)
  | none => -1

/-- JS `s.split(" ")`: split on each single space character, keeping empty
pieces; `"".split(" ")` is `[""]`. -/
def splitOnSpace : List Char → List (List Char)
  | [] => [[]]
  | c :: t =>
    if c = ' ' then [] :: splitOnSpace t
    else
      match splitOnSpace t with
      | [] => [[c]]
      | h :: r => (c :: h) :: r

/-- JS truthiness of a value that is either a boolean or `undefined`
(modelled as `none`): `undefined` is falsy. -/
def jsTruthy : Option Bool → Bool
  | some b => b
  | none => false

/-- Whether JS `parseFloat(s)` yields a number (not NaN), i.e. whether
`!isNaN(parseFloat(s))` holds. `parseFloat` skips leading whitespace and an
optional sign, then succeeds iff the remainder starts with a decimal digit,
a dot followed by a digit, or `Infinity`. -/
def jsParseFloatNotNaN (s : List Char) : Bool :=
  let t := s.dropWhile Char.isWhitespace
  let t2 :=
    match t with
    | '+' :: r => r
    | '-' :: r => r
    | r => r
  match t2 with
  | [] => false
  | '.' :: r =>
    match r with
    | d :: _ => d.isDigit
    | [] => false
  | 'I' :: 'n' :: 'f' :: 'i' :: 'n' :: 'i' :: 't' :: 'y' :: _ => true
  | d :: _ => d.isDigit

/-- Translation of `hack_IsErrorAnError(err)` (src/index.js lines 162-175).

The source splits `err` on single spaces, takes the last piece, and
returns `false` (benign) when that piece both contains a `.` and parses as
a float; on every other path the function ends without executing a
`return` statement, so it returns `undefined`, modelled as `none`. A
missing/`undefined` argument (`typeof err !== "string"`) yields
`errSplit = [""]`. The source's `try`/`catch` block is unreachable:
`errStrToCheck` is always a string, and `String.prototype.indexOf` and
`parseFloat` do not throw on strings, so the `return true` inside `catch`
never runs. -/
def hack_IsErrorAnError (err : Option String) : Option Bool :=
  let errSplit : List (List Char) :=
    match err with
    | some s => splitOnSpace s.toList
    | none => [[]]
  let errStrToCheck := errSplit.getD (errSplit.length - 1) []
  let isADecimal := jsIndexOf errStrToCheck ['.'] != -1
  let isValidFloat := jsParseFloatNotNaN errStrToCheck
  if isADecimal && isValidFloat then some false else none

/-- Translation of `checkArgsForFlag(flag)` (src/index.js lines 197-199):
`Boolean(args.find((a) => a.indexOf(flag) === 0))`. The found argument is
coerced to a boolean, so a found empty string would count as absent. -/
def checkArgsForFlag (args : List String) (flag : String) : Bool :=
  match args.find? (fun a => jsIndexOf a.toList flag.toList == 0) with
  | some a => a != ""
  | none => false

/-- Constant `MAX_CONCURRENT_FILES` (src/index.js line 21). -/
def MAX_CONCURRENT_FILES : Nat := 3

/-- Flag configuration derived in `main` (src/index.js lines 46-51): help,
silent and test mode come from `checkArgsForFlag`; the concurrency bound is
the constant `MAX_CONCURRENT_FILES`, which is what lines 107-108 read — no
code in the source inspects a `-c` argument, although `HELP_TEXT`
advertises one. -/
structure ParsedConfig where
  helpMode : Bool
  silentMode : Bool
  testMode : Bool
  maxConcurrent : Nat
  deriving DecidableEq

def parseConfig (args : List String) : ParsedConfig :=
  { helpMode := checkArgsForFlag args "-h"
    silentMode := checkArgsForFlag args "-s"
    testMode := checkArgsForFlag args "-t"
    maxConcurrent := MAX_CONCURRENT_FILES }

/-- Constant `COMPATIBLE_FILE_EXTS` (src/index.js line 20). -/
def COMPATIBLE_FILE_EXTS : List String := ["png", "jpg", "jpeg"]

/-- Extension extraction from the filter in `main` (src/index.js line 85):
`e.toLowerCase().substr(e.lastIndexOf(".") + 1)`. `lastIndexOf` runs on the
original name, `substr` on the lowercased one; `Char.toLower` preserves
length, matching JS on the ASCII names involved. A name without a dot
yields the whole lowercased name; a name ending in a dot yields `""`. -/
def fileExtOf (e : String) : List Char :=
  (e.toList.map Char.toLower).drop (jsLastIndexOf e.toList ['.'] + 1).toNat

/-- Filter predicate from `main` (src/index.js line 86):
`COMPATIBLE_FILE_EXTS.findIndex((ext) => ext.indexOf(eExt) !== -1) !== -1`,
i.e. keep `e` iff its extracted extension occurs as a SUBSTRING of some
whitelist entry. -/
def isCompatibleFile (e : String) : Bool :=
  COMPATIBLE_FILE_EXTS.any (fun ext => jsIndexOf ext.toList (fileExtOf e) != -1)

/-- The input enumeration filter applied to a directory listing
(src/index.js lines 82-87). -/
def filterInputFiles (files : List String) : List String :=
  files.filter isCompatibleFile

/-- C3: the classifier splits on spaces and tests the last token, but on
the three inputs the claim labels Error it returns `undefined` (`none`) —
the function body only ever executes `return false`; every non-benign path
falls off the end. Coerced to a boolean (as the sole caller does),
`undefined` is falsy, so no input is ever classified as an error. Only the
Benign case of the claim matches the code. -/
theorem c3_classifier_outputs :
    hack_IsErrorAnError (some "... 12.5") = some false ∧
    hack_IsErrorAnError (some "Cannot open input file") = none ∧
    hack_IsErrorAnError (some "") = none ∧
    hack_IsErrorAnError (some "... .") = none ∧
    (∀ s : Option String, hack_IsErrorAnError s ≠ some true) := by
  refine ⟨by decide, by decide, by decide, by decide, ?_⟩
  intro s
  unfold hack_IsErrorAnError
  dsimp only
  split <;> simp

/-- C7: the `-c` flag has no effect: the configuration derived from any
argument list carries the constant `MAX_CONCURRENT_FILES = 3` as its
concurrency bound, including for `["-c", "5"]`. -/
theorem c7_max_concurrent_fixed :
    (∀ args : List String, (parseConfig args).maxConcurrent = 3) ∧
    (parseConfig ["-c", "5"]).maxConcurrent = 3 :=
  ⟨fun _ => rfl, rfl⟩

/-- C8: on the scenario listing the filter yields exactly `a.png, c.jpeg`,
but the whitelist test is substring containment, not equality: `d.jp`
(extension `jp`, a substring of `jpg`) and `e.` (empty extension, a
substring of everything) are also kept, though neither's extension equals
a whitelist entry. -/
theorem c8_extension_filter :
    filterInputFiles ["a.png", "b.txt", "c.jpeg"] = ["a.png", "c.jpeg"] ∧
    filterInputFiles ["a.png", "b.txt", "c.jpeg", "d.jp", "e."] =
      ["a.png", "c.jpeg", "d.jp", "e."] ∧
    (∀ x ∈ COMPATIBLE_FILE_EXTS, x ≠ "jp" ∧ x ≠ "") := by
  refine ⟨by decide, by decide, by decide⟩

lemma matchesAt_iff (sub hay : List Char) :
    matchesAt hay sub = true ↔ ∃ r, hay = sub ++ r := by
  induction sub generalizing hay with
  | nil => cases hay <;> simp [matchesAt]
  | cons c cs ih =>
    cases hay with
    | nil => simp [matchesAt]
    | cons h t =>
      simp only [matchesAt, Bool.and_eq_true, beq_iff_eq, ih, List.cons_append,
        List.cons.injEq]
      constructor
      · rintro ⟨rfl, r, rfl⟩
        exact ⟨r, rfl, rfl⟩
      · rintro ⟨r, rfl, rfl⟩
        exact ⟨rfl, r, rfl⟩

lemma indexOfFrom_le {sub : List Char} :
    ∀ (hay : List Char) (i j : Nat), indexOfFrom sub hay i = some j → i ≤ j := by
  intro hay
  induction hay with
  | nil =>
    intro i j h
    unfold indexOfFrom at h
    split at h
    · cases h
      exact Nat.le_refl _
    · cases h
  | cons c t ih =>
    intro i j h
    unfold indexOfFrom at h
    split at h
    · cases h
      exact Nat.le_refl _
    · exact Nat.le_of_succ_le (ih (i + 1) j h)

lemma jsIndexOf_eq_zero_iff (hay sub : List Char) :
    jsIndexOf hay sub = 0 ↔ matchesAt hay sub = true := by
  cases hay with
  | nil =>
    cases hm : matchesAt [] sub <;> simp [jsIndexOf, indexOfFrom, hm]
  | cons c t =>
    cases hm : matchesAt (c :: t) sub with
    | true => simp [jsIndexOf, indexOfFrom, hm]
    | false =>
      cases hx : indexOfFrom sub t 1 with
      | none => simp [jsIndexOf, indexOfFrom, hm, hx]
      | some j =>
        have hj := indexOfFrom_le t 1 j hx
        simp [jsIndexOf, indexOfFrom, hm, hx]
        omega

lemma checkArgsForFlag_iff (args : List String) (flag : String)
    (hne : flag.toList ≠ []) :
    checkArgsForFlag args flag = true ↔
      ∃ a ∈ args, ∃ r, a.toList = flag.toList ++ r := by
  unfold checkArgsForFlag
  cases hf : args.find? (fun a => jsIndexOf a.toList flag.toList == 0) with
  | none =>
    simp only [Bool.false_eq_true, false_iff]
    rintro ⟨a, ha, r, har⟩
    have hz : jsIndexOf a.toList flag.toList = 0 := by
      rw [jsIndexOf_eq_zero_iff, matchesAt_iff]
      exact ⟨r, har⟩
    have hna := List.find?_eq_none.mp hf a ha
    exact hna (by simpa using hz)
  | some a =>
    have hpa := List.find?_some hf
    have hmem : a ∈ args := List.mem_of_find?_eq_some hf
    have hz : jsIndexOf a.toList flag.toList = 0 := by simpa using hpa
    have hpre : ∃ r, a.toList = flag.toList ++ r := by
      rw [← matchesAt_iff, ← jsIndexOf_eq_zero_iff]
      exact hz
    have hane : (a != "") = true := by
      obtain ⟨r, hr⟩ := hpre
      have hnil : ("" : String).toList = [] := by decide
      simp only [bne_iff_ne, ne_eq]
      intro h
      subst h
      rw [hnil] at hr
      exact hne (List.append_eq_nil.mp hr.symm).1
    simp only [hane, true_iff]
    exact ⟨a, hmem, hpre⟩

/-- C10: a flag is detected as present by `checkArgsForFlag` iff some
argument string begins with the flag as a prefix (the source tests
`a.indexOf(flag) === 0`, not equality), so any argument starting with
`-h`, `-s` or `-t` activates help, silent or test mode respectively. -/
theorem c10_flag_prefix_detection (args : List String) :
    ((parseConfig args).helpMode = true ↔
      ∃ a ∈ args, ∃ r, a.toList = "-h".toList ++ r) ∧
    ((parseConfig args).silentMode = true ↔
      ∃ a ∈ args, ∃ r, a.toList = "-s".toList ++ r) ∧
    ((parseConfig args).testMode = true ↔
      ∃ a ∈ args, ∃ r, a.toList = "-t".toList ++ r) :=
  ⟨checkArgsForFlag_iff args "-h" (by decide),
   checkArgsForFlag_iff args "-s" (by decide),
   checkArgsForFlag_iff args "-t" (by decide)⟩

/-- Batch-relevant configuration of a run of `main`: the test-mode flag
(line 51) and the two directories whose values are concatenated into the
spawn arguments (lines 117-118). -/
structure RunCfg where
  testMode : Bool
  inputDirectory : String
  outputDirectory : String
  deriving DecidableEq

/-- Terminal outcome recorded for one work item: `success` when the close
handler runs with exit code 0, `failureExit` when it runs with a non-zero
code (line 134 reports it), `failureDiag` on the stderr path of
lines 145-147 (which turns out to be unreachable). -/
inductive Outcome
  | success
  | failureExit (code : Int)
  | failureDiag (text : String)
  deriving DecidableEq

/-- Constant `BASE_WEBP_SETTINGS` (src/index.js lines 34-42). -/
def BASE_WEBP_SETTINGS : List String :=
  ["-mt", "-q 50", "-pass 10", "-m 6", "-alpha_filter best", "-short", "-af"]

/-- Argument pushed at line 117: `-o "<outputDirectory><e>.webp"`. -/
def oArg (outputDirectory e : String) : String :=
  "-o \"" ++ outputDirectory ++ e ++ ".webp\""

/-- Argument pushed at line 118: `"<inputDirectory><e>"`. -/
def srcArg (inputDirectory e : String) : String :=
  "\"" ++ inputDirectory ++ e ++ "\""

/-- Effect of lines 116-118 on the settings array: `const cwebpArgs =
BASE_WEBP_SETTINGS` ALIASES the shared array, so the two `push` calls
append to it in place; the spawned process receives the array's contents
at spawn time. -/
def spawnArgsOf (cfg : RunCfg) (settings : List String) (e : String) : List String :=
  settings ++ [oArg cfg.outputDirectory e, srcArg cfg.inputDirectory e]

/-- State of one batch run of `main` (lines 95-153).

`pending` are enumerated items whose executor has not yet passed the
admission gate; `running` are items whose process was spawned and has not
yet emitted its `close` event, each paired with a flag recording whether
the item was already resolved by the stderr handler; `outcomes` are the
recorded per-item resolutions; `conc` is the `concurrency` counter
(line 95); `settings` is the current contents of the shared
`BASE_WEBP_SETTINGS` array; `spawns` lists the argument arrays passed to
`spawn`, in spawn order; `acquires` and `releases` count the increments
and decrements of `concurrency`. -/
structure BState where
  pending : List String
  running : List (String × Bool)
  outcomes : List Outcome
  conc : Int
  settings : List String
  spawns : List (List String)
  acquires : Nat
  releases : Nat
  deriving DecidableEq

/-- Start of a batch over the enumerated `items`: nothing admitted,
`concurrency = 0` (line 95), the settings array holds the base template. -/
def initState (items : List String) : BState :=
  { pending := items
    running := []
    outcomes := []
    conc := 0
    settings := BASE_WEBP_SETTINGS
    spawns := []
    acquires := 0
    releases := 0 }

/-- Outcome recorded by the close handler (lines 132-138): the non-zero
exit code is reported as an error, then the item resolves. -/
def closeOutcome (code : Int) : Outcome :=
  if code = 0 then Outcome.success else Outcome.failureExit code

/-- Remove the first occurrence of `x`. Used to model the completed item
leaving the in-flight set when its close handler runs. -/
def removeFirst : List (String × Bool) → (String × Bool) → List (String × Bool)
  | [], _ => []
  | h :: t, x => if h = x then t else h :: removeFirst t x

/-- Translation of the stderr `data` handler (src/index.js lines 140-148)
acting on item `e` (whose resolved flag is `b`) with arriving text `s`:

    const err = _err.toString().trim();
    if(!hack_IsErrorAnError()) return;
    console.error(...); concurrency--; resolve(err);

The source invokes `hack_IsErrorAnError()` with NO argument even though
`err` is in scope, so the classifier always receives `undefined` (`none`).
If its result were truthy the handler would decrement the counter, mark
the item resolved and (if the promise was not already resolved) record the
failure text; otherwise it returns leaving the state unchanged. -/
def stderrHandler (st : BState) (e : String) (b : Bool) (s : String) : BState :=
  let err := s.trim
  if jsTruthy (hack_IsErrorAnError none) then
    { st with
        running := st.running.map (fun p => if p.1 = e then (p.1, true) else p)
        conc := st.conc - 1
        releases := st.releases + 1
        outcomes := st.outcomes ++ (if b then [] else [Outcome.failureDiag err]) }
  else st

/-- Small-step semantics of the batch loop of `main` under concurrency
bound `mc`, one step per event-loop turn that touches the batch state.

`admitSpawn`: a pending item's executor passes the admission gate
(lines 107-109: it proceeds only when `concurrency < mc`; the final
availability check and the `concurrency++` of line 113 run in one
JavaScript event-loop turn with no interleaving point between them, hence
one atomic step), pushes its two arguments onto the shared settings array
and spawns its process (lines 113-121). Any pending item may be admitted,
since resumption order of the polling waiters is unspecified.

`admitDry`: the same gate passage in test mode (lines 149-151): no
counter change, no spawn, the item resolves successfully at once.

`stderrEvt`: a running item's diagnostic stream emits `s` (lines 140-148).

`closeEvt`: a running item's process exits with `code` and its close
handler runs (lines 132-138): the counter is decremented and the item
resolves. -/
inductive Step (cfg : RunCfg) (mc : Nat) : BState → BState → Prop
  | admitSpawn (st : BState) (l₁ l₂ : List String) (e : String)
      (hmode : cfg.testMode = false)
      (hp : st.pending = l₁ ++ e :: l₂)
      (hc : st.conc < (mc : Int)) :
      Step cfg mc st
        { st with
            pending := l₁ ++ l₂
            running := st.running ++ [(e, false)]
            conc := st.conc + 1
            settings := spawnArgsOf cfg st.settings e
            spawns := st.spawns ++ [spawnArgsOf cfg st.settings e]
            acquires := st.acquires + 1 }
  | admitDry (st : BState) (l₁ l₂ : List String) (e : String)
      (hmode : cfg.testMode = true)
      (hp : st.pending = l₁ ++ e :: l₂)
      (hc : st.conc < (mc : Int)) :
      Step cfg mc st
        { st with
            pending := l₁ ++ l₂
            outcomes := st.outcomes ++ [Outcome.success] }
  | stderrEvt (st : BState) (e : String) (b : Bool) (s : String)
      (hmem : (e, b) ∈ st.running) :
      Step cfg mc st (stderrHandler st e b s)
  | closeEvt (st : BState) (e : String) (b : Bool) (code : Int)
      (hmem : (e, b) ∈ st.running) :
      Step cfg mc st
        { st with
            running := removeFirst st.running (e, b)
            conc := st.conc - 1
            releases := st.releases + 1
            outcomes := st.outcomes ++ (if b then [] else [closeOutcome code]) }

/-- States reachable during the batch over `items`. -/
def Reachable (cfg : RunCfg) (mc : Nat) (items : List String) (st : BState) : Prop :=
  Relation.ReflTransGen (Step cfg mc) (initState items) st

/-- The batch has resolved: `Promise.all` fires once every item promise
has resolved, i.e. nothing is pending or in flight. -/
def Final (st : BState) : Prop := st.pending = [] ∧ st.running = []

lemma stderrHandler_id (st : BState) (e : String) (b : Bool) (s : String) :
    stderrHandler st e b s = st := by
  have hnone : hack_IsErrorAnError none = none := rfl
  simp [stderrHandler, hnone, jsTruthy]

lemma removeFirst_length_of_mem :
    ∀ {l : List (String × Bool)} {x}, x ∈ l →
      (removeFirst l x).length + 1 = l.length := by
  intro l
  induction l with
  | nil => intro x h; cases h
  | cons a t ih =>
    intro x h
    by_cases hax : a = x
    · simp [removeFirst, hax]
    · have hxt : x ∈ t := by
        rcases List.mem_cons.mp h with h1 | h1
        · exact absurd h1.symm hax
        · exact h1
      simp only [removeFirst, if_neg hax, List.length_cons]
      rw [← ih hxt]

lemma removeFirst_subset :
    ∀ {l : List (String × Bool)} {x p}, p ∈ removeFirst l x → p ∈ l := by
  intro l
  induction l with
  | nil =>
    intro x p h
    rw [removeFirst] at h
    cases h
  | cons a t ih =>
    intro x p h
    by_cases hax : a = x
    · rw [removeFirst, if_pos hax] at h
      exact List.mem_cons_of_mem _ h
    · rw [removeFirst, if_neg hax] at h
      rcases List.mem_cons.mp h with h1 | h1
      · exact h1 ▸ List.mem_cons_self _ _
      · exact List.mem_cons_of_mem _ (ih h1)

/-- Inductive invariant of the batch loop: no item is ever resolved early
by the stderr handler, the `concurrency` counter equals the number of
in-flight processes, never exceeds the bound, every enumerated item is in
exactly one of pending/running/resolved, and counter increments balance
decrements plus the in-flight count, one increment per spawn. -/
def BatchInv (mc n : Nat) (st : BState) : Prop :=
  (∀ p ∈ st.running, p.2 = false) ∧
  st.conc = st.running.length ∧
  st.running.length ≤ mc ∧
  st.pending.length + st.running.length + st.outcomes.length = n ∧
  st.acquires = st.releases + st.running.length ∧
  st.acquires = st.spawns.length

lemma batchInv_step {cfg : RunCfg} {mc n : Nat} {st st' : BState}
    (h : Step cfg mc st st') (hinv : BatchInv mc n st) : BatchInv mc n st' := by
  obtain ⟨hflag, hconc, hle, hcard, hacq, hsp⟩ := hinv
  cases h with
  | admitSpawn l₁ l₂ e hmode hp hc =>
    rw [hp] at hcard
    simp only [List.length_append, List.length_cons] at hcard
    refine ⟨?_, ?_, ?_, ?_, ?_, ?_⟩
    · intro p hp'
      rcases List.mem_append.mp hp' with h1 | h1
      · exact hflag p h1
      · simp only [List.mem_singleton] at h1
        rw [h1]
    · simp only [List.length_append, List.length_singleton]
      rw [hconc]
      push_cast
      ring
    · simp only [List.length_append, List.length_singleton]
      rw [hconc] at hc
      have : st.running.length < mc := by exact_mod_cast hc
      omega
    · simp only [List.length_append, List.length_singleton, List.length_cons,
        List.length_nil]
      omega
    · simp only [List.length_append, List.length_singleton]
      omega
    · simp only [List.length_append, List.length_singleton]
      omega
  | admitDry l₁ l₂ e hmode hp hc =>
    rw [hp] at hcard
    simp only [List.length_append, List.length_cons] at hcard
    refine ⟨hflag, hconc, hle, ?_, hacq, hsp⟩
    simp only [List.length_append, List.length_singleton]
    omega
  | stderrEvt e b s hmem =>
    rw [stderrHandler_id]
    exact ⟨hflag, hconc, hle, hcard, hacq, hsp⟩
  | closeEvt e b code hmem =>
    have hb : b = false := hflag (e, b) hmem
    subst hb
    have hlen := removeFirst_length_of_mem hmem
    refine ⟨?_, ?_, ?_, ?_, ?_, ?_⟩
    · intro p hp'
      exact hflag p (removeFirst_subset hp')
    · dsimp only
      rw [hconc]
      omega
    · dsimp only
      omega
    · simp only [Bool.false_eq_true, if_false, List.length_append,
        List.length_singleton, List.length_cons, List.length_nil]
      omega
    · dsimp only
      omega
    · exact hsp

lemma reachable_batchInv {cfg : RunCfg} {mc : Nat} {items : List String}
    {st : BState} (h : Reachable cfg mc items st) :
    BatchInv mc items.length st := by
  induction h with
  | refl =>
    refine ⟨?_, ?_, ?_, ?_, ?_, ?_⟩ <;> simp [initState]
  | tail hsteps hstep ih => exact batchInv_step hstep ih

/-- Invariant of test-mode runs: nothing is ever spawned or in flight and
every recorded outcome is a success. -/
def DryInv (st : BState) : Prop :=
  st.running = [] ∧ st.spawns = [] ∧ ∀ o ∈ st.outcomes, o = Outcome.success

lemma dryInv_step {cfg : RunCfg} {mc : Nat} {st st' : BState}
    (ht : cfg.testMode = true) (h : Step cfg mc st st') (hd : DryInv st) :
    DryInv st' := by
  obtain ⟨hrun, hspawn, hout⟩ := hd
  cases h with
  | admitSpawn l₁ l₂ e hmode hp hc =>
    rw [ht] at hmode
    cases hmode
  | admitDry l₁ l₂ e hmode hp hc =>
    refine ⟨hrun, hspawn, ?_⟩
    intro o ho
    rcases List.mem_append.mp ho with h1 | h1
    · exact hout o h1
    · simp only [List.mem_singleton] at h1
      exact h1
  | stderrEvt e b s hmem =>
    rw [hrun] at hmem
    cases hmem
  | closeEvt e b code hmem =>
    rw [hrun] at hmem
    cases hmem

lemma reachable_dryInv {cfg : RunCfg} {mc : Nat} {items : List String}
    {st : BState} (ht : cfg.testMode = true) (h : Reachable cfg mc items st) :
    DryInv st := by
  induction h with
  | refl => exact ⟨rfl, rfl, by simp [initState]⟩
  | tail hsteps hstep ih => exact dryInv_step ht hstep ih

lemma progress_aux (cfg : RunCfg) (mc n : Nat) (hmc : 0 < mc) :
    ∀ m st, 2 * st.pending.length + st.running.length = m → BatchInv mc n st →
      ∃ st', Relation.ReflTransGen (Step cfg mc) st st' ∧ Final st' ∧
        BatchInv mc n st' := by
  intro m
  induction m using Nat.strong_induction_on with
  | _ m ih =>
    intro st hm hinv
    cases hrun : st.running with
    | cons p t =>
      obtain ⟨e, b⟩ := p
      have hmem : (e, b) ∈ st.running := by
        rw [hrun]
        exact List.mem_cons_self _ _
      have hstep : Step cfg mc st
          { st with
              running := removeFirst st.running (e, b)
              conc := st.conc - 1
              releases := st.releases + 1
              outcomes := st.outcomes ++ (if b then [] else [closeOutcome 0]) } :=
        Step.closeEvt st e b 0 hmem
      have hinv' := batchInv_step hstep hinv
      have hlen := removeFirst_length_of_mem hmem
      obtain ⟨st'', hrtg, hfin, hinv''⟩ :=
        ih (2 * st.pending.length + (removeFirst st.running (e, b)).length)
          (by omega) _ rfl hinv'
      exact ⟨st'', Relation.ReflTransGen.head hstep hrtg, hfin, hinv''⟩
    | nil =>
      cases hpend : st.pending with
      | nil => exact ⟨st, Relation.ReflTransGen.refl, ⟨hpend, hrun⟩, hinv⟩
      | cons e rest =>
        have hc : st.conc < (mc : Int) := by
          rw [hinv.2.1, hrun]
          simp only [List.length_nil, Nat.cast_zero]
          exact_mod_cast hmc
        rw [hpend] at hm
        simp only [List.length_cons] at hm
        cases hmode : cfg.testMode with
        | true =>
          have hstep : Step cfg mc st
              { st with
                  pending := [] ++ rest
                  outcomes := st.outcomes ++ [Outcome.success] } :=
            Step.admitDry st [] rest e hmode (by rw [hpend]; rfl) hc
          have hinv' := batchInv_step hstep hinv
          obtain ⟨st'', hrtg, hfin, hinv''⟩ :=
            ih (2 * ([] ++ rest : List String).length + st.running.length)
              (by simp only [List.nil_append]; omega) _ rfl hinv'
          exact ⟨st'', Relation.ReflTransGen.head hstep hrtg, hfin, hinv''⟩
        | false =>
          have hstep : Step cfg mc st
              { st with
                  pending := [] ++ rest
                  running := st.running ++ [(e, false)]
                  conc := st.conc + 1
                  settings := spawnArgsOf cfg st.settings e
                  spawns := st.spawns ++ [spawnArgsOf cfg st.settings e]
                  acquires := st.acquires + 1 } :=
            Step.admitSpawn st [] rest e hmode (by rw [hpend]; rfl) hc
          have hinv' := batchInv_step hstep hinv
          obtain ⟨st'', hrtg, hfin, hinv''⟩ :=
            ih (2 * ([] ++ rest : List String).length +
                (st.running ++ [(e, false)]).length)
              (by
                simp only [List.nil_append, List.length_append,
                  List.length_singleton]
                rw [hrun]
                simp only [List.length_nil]
                omega) _ rfl hinv'
          exact ⟨st'', Relation.ReflTransGen.head hstep hrtg, hfin, hinv''⟩

lemma reachable_final_exists {cfg : RunCfg} {mc : Nat} {items : List String}
    {st : BState} (hmc : 0 < mc) (h : Reachable cfg mc items st) :
    ∃ st', Relation.ReflTransGen (Step cfg mc) st st' ∧ Final st' ∧
      st'.outcomes.length = items.length := by
  obtain ⟨st', hrtg, hfin, hinv'⟩ :=
    progress_aux cfg mc items.length hmc
      (2 * st.pending.length + st.running.length) st rfl (reachable_batchInv h)
  refine ⟨st', hrtg, hfin, ?_⟩
  have hcard := hinv'.2.2.2.1
  rw [hfin.1, hfin.2] at hcard
  simpa using hcard

/-- Configuration of a non-test run with the default directories of
src/index.js lines 16-17. -/
def cfgA : RunCfg :=
  { testMode := false, inputDirectory := "input/", outputDirectory := "output/" }

/-- Configuration of a test-mode (`-t`) run. -/
def cfgT : RunCfg :=
  { testMode := true, inputDirectory := "input/", outputDirectory := "output/" }

/-- State of the two-item batch after the first item is admitted. -/
def stB1 : BState :=
  { pending := ["b.png"]
    running := [("a.png", false)]
    outcomes := []
    conc := 1
    settings := spawnArgsOf cfgA BASE_WEBP_SETTINGS "a.png"
    spawns := [spawnArgsOf cfgA BASE_WEBP_SETTINGS "a.png"]
    acquires := 1
    releases := 0 }

/-- State of the two-item batch after both items are admitted: the second
spawn received the settings array as left by the first item's pushes. -/
def stB2 : BState :=
  { pending := []
    running := [("a.png", false), ("b.png", false)]
    outcomes := []
    conc := 2
    settings := spawnArgsOf cfgA (spawnArgsOf cfgA BASE_WEBP_SETTINGS "a.png") "b.png"
    spawns := [spawnArgsOf cfgA BASE_WEBP_SETTINGS "a.png",
               spawnArgsOf cfgA (spawnArgsOf cfgA BASE_WEBP_SETTINGS "a.png") "b.png"]
    acquires := 2
    releases := 0 }

lemma step_B0_B1 : Step cfgA 3 (initState ["a.png", "b.png"]) stB1 :=
  Step.admitSpawn (initState ["a.png", "b.png"]) [] ["b.png"] "a.png" rfl rfl
    (by decide)

lemma step_B1_B2 : Step cfgA 3 stB1 stB2 :=
  Step.admitSpawn stB1 [] [] "b.png" rfl rfl (by decide)

/-- State of a one-item batch after its item is admitted. -/
def stC1 : BState :=
  { pending := []
    running := [("a.png", false)]
    outcomes := []
    conc := 1
    settings := spawnArgsOf cfgA BASE_WEBP_SETTINGS "a.png"
    spawns := [spawnArgsOf cfgA BASE_WEBP_SETTINGS "a.png"]
    acquires := 1
    releases := 0 }

/-- State of that batch after the process emitted stderr data and then
closed with exit code 0. -/
def stC2 : BState :=
  { pending := []
    running := []
    outcomes := [Outcome.success]
    conc := 0
    settings := spawnArgsOf cfgA BASE_WEBP_SETTINGS "a.png"
    spawns := [spawnArgsOf cfgA BASE_WEBP_SETTINGS "a.png"]
    acquires := 1
    releases := 1 }

lemma reach_C2 : Reachable cfgA 3 ["a.png"] stC2 := by
  have h1 : Step cfgA 3 (initState ["a.png"]) stC1 :=
    Step.admitSpawn (initState ["a.png"]) [] [] "a.png" rfl rfl (by decide)
  have h2 : Step cfgA 3 stC1 (stderrHandler stC1 "a.png" false "Error: bad file") :=
    Step.stderrEvt stC1 "a.png" false "Error: bad file" (by decide)
  have h3 : Step cfgA 3 stC1 stC2 :=
    Step.closeEvt stC1 "a.png" false 0 (by decide)
  rw [stderrHandler_id] at h2
  exact Relation.ReflTransGen.tail
    (Relation.ReflTransGen.tail (Relation.ReflTransGen.single h1) h2) h3

/-- States of a two-item test-mode batch after one and both items
resolve. -/
def stT1 : BState :=
  { pending := ["b.png"]
    running := []
    outcomes := [Outcome.success]
    conc := 0
    settings := BASE_WEBP_SETTINGS
    spawns := []
    acquires := 0
    releases := 0 }

def stT2 : BState :=
  { pending := []
    running := []
    outcomes := [Outcome.success, Outcome.success]
    conc := 0
    settings := BASE_WEBP_SETTINGS
    spawns := []
    acquires := 0
    releases := 0 }

lemma reach_T2 : Reachable cfgT 3 ["a.png", "b.png"] stT2 := by
  have h1 : Step cfgT 3 (initState ["a.png", "b.png"]) stT1 :=
    Step.admitDry (initState ["a.png", "b.png"]) [] ["b.png"] "a.png" rfl rfl
      (by decide)
  have h2 : Step cfgT 3 stT1 stT2 :=
    Step.admitDry stT1 [] [] "b.png" rfl rfl (by decide)
  exact Relation.ReflTransGen.tail (Relation.ReflTransGen.single h1) h2

/-- C5: in the reachable state in which both items of the batch
`["a.png", "b.png"]` have been admitted, the first spawn received the base
template plus item a's two arguments, but the second spawn received item
a's arguments as well as item b's — not the template plus item b's alone —
because lines 116-118 alias and mutate the shared `BASE_WEBP_SETTINGS`
array instead of copying it. -/
theorem c5_spawn_args_accumulate :
    Reachable cfgA 3 ["a.png", "b.png"] stB2 ∧
    stB2.spawns =
      [BASE_WEBP_SETTINGS ++ [oArg "output/" "a.png", srcArg "input/" "a.png"],
       BASE_WEBP_SETTINGS ++ [oArg "output/" "a.png", srcArg "input/" "a.png",
         oArg "output/" "b.png", srcArg "input/" "b.png"]] ∧
    oArg "output/" "a.png" ∈ stB2.spawns.getD 1 [] ∧
    stB2.spawns.getD 1 [] ≠
      BASE_WEBP_SETTINGS ++ [oArg "output/" "b.png", srcArg "input/" "b.png"] := by
  refine ⟨?_, by decide, by decide, by decide⟩
  exact Relation.ReflTransGen.tail (Relation.ReflTransGen.single step_B0_B1)
    step_B1_B2

/-- C1: in every batch, under any concurrency bound and any interleaving
of gate acquire/release steps, the in-use slot count (`concurrency`)
stays between 0 and the bound in every reachable state. -/
theorem c1_slot_count_bounds (cfg : RunCfg) (mc : Nat) (items : List String)
    (st : BState) (h : Reachable cfg mc items st) :
    0 ≤ st.conc ∧ st.conc ≤ (mc : Int) := by
  obtain ⟨-, hconc, hle, -, -, -⟩ := reachable_batchInv h
  constructor
  · rw [hconc]
    exact_mod_cast Nat.zero_le _
  · rw [hconc]
    exact_mod_cast hle

/-- Witness for C1: the concrete state reached after admitting the first
item of a two-item batch has counter 1, within bounds for the source's
bound of 3. -/
theorem c1_slot_count_bounds_witness :
    0 ≤ stB1.conc ∧ stB1.conc ≤ ((3 : Nat) : Int) :=
  c1_slot_count_bounds cfgA 3 ["a.png", "b.png"] stB1
    (Relation.ReflTransGen.single step_B0_B1)

/-- C2: at the end of any batch (all items resolved), the number of slot
releases equals the number of slot acquires, and there was exactly one
acquire per spawned process. In the source this holds because the only
live decrement is the one in the close handler: the stderr handler's
decrement is unreachable (its guard is always falsy), so each spawned
item releases its slot exactly once, at close time. -/
theorem c2_acquire_release_balance (cfg : RunCfg) (mc : Nat)
    (items : List String) (st : BState) (h : Reachable cfg mc items st)
    (hf : Final st) :
    st.acquires = st.releases ∧ st.acquires = st.spawns.length := by
  obtain ⟨-, -, -, -, hacq, hsp⟩ := reachable_batchInv h
  rw [hf.2] at hacq
  simp only [List.length_nil, Nat.add_zero] at hacq
  exact ⟨hacq, hsp⟩

/-- Witness for C2: a one-item batch whose process emits stderr data and
then closes ends with one acquire, one release, one spawn. -/
theorem c2_acquire_release_balance_witness :
    stC2.acquires = stC2.releases ∧ stC2.acquires = stC2.spawns.length :=
  c2_acquire_release_balance cfgA 3 ["a.png"] stC2 reach_C2 ⟨rfl, rfl⟩

/-- C4: the stderr-data handler never finalizes an item. Whatever text
arrives, the handler leaves the batch state unchanged, because the source
calls `hack_IsErrorAnError()` without passing the text and the classifier
applied to `undefined` returns `undefined`, which is falsy — so the
`Failure`/release path after the early `return` is unreachable. -/
theorem c4_stderr_path_dead :
    (∀ st e b s, stderrHandler st e b s = st) ∧
    jsTruthy (hack_IsErrorAnError none) = false :=
  ⟨stderrHandler_id, rfl⟩

/-- C6: every reachable final state of a batch records exactly one outcome
per enumerated item, and from every reachable state (in particular after
any item's failure) a final state with that many outcomes is still
reachable — no failure aborts the batch. Requires a positive concurrency
bound (the source's is 3). -/
theorem c6_all_items_complete (cfg : RunCfg) (mc : Nat) (items : List String)
    (st : BState) (hmc : 0 < mc) (h : Reachable cfg mc items st) :
    (Final st → st.outcomes.length = items.length) ∧
    ∃ st', Relation.ReflTransGen (Step cfg mc) st st' ∧ Final st' ∧
      st'.outcomes.length = items.length := by
  constructor
  · intro hf
    have hcard := (reachable_batchInv h).2.2.2.1
    rw [hf.1, hf.2] at hcard
    simpa using hcard
  · exact reachable_final_exists hmc h

/-- Witness for C6: the empty batch is immediately final with zero
outcomes for zero items. -/
theorem c6_all_items_complete_witness :
    (Final (initState []) →
      (initState []).outcomes.length = ([] : List String).length) ∧
    ∃ st', Relation.ReflTransGen (Step cfgA 3) (initState []) st' ∧ Final st' ∧
      st'.outcomes.length = ([] : List String).length :=
  c6_all_items_complete cfgA 3 [] (initState []) (by decide)
    Relation.ReflTransGen.refl

/-- C9: in test mode, any final state of a batch has exactly one Success
outcome per enumerated item and an empty spawn list — no subprocess is
ever spawned. -/
theorem c9_dry_run_outcomes (cfg : RunCfg) (mc : Nat) (items : List String)
    (st : BState) (ht : cfg.testMode = true) (h : Reachable cfg mc items st)
    (hf : Final st) :
    st.outcomes.length = items.length ∧
    (∀ o ∈ st.outcomes, o = Outcome.success) ∧ st.spawns = [] := by
  obtain ⟨hrun, hspawn, hout⟩ := reachable_dryInv ht h
  have hcard := (reachable_batchInv h).2.2.2.1
  rw [hf.1, hf.2] at hcard
  exact ⟨by simpa using hcard, hout, hspawn⟩

/-- Witness for C9: a concrete two-item test-mode batch ends with two
Success outcomes and no spawns. -/
theorem c9_dry_run_outcomes_witness :
    stT2.outcomes.length = (["a.png", "b.png"] : List String).length ∧
    (∀ o ∈ stT2.outcomes, o = Outcome.success) ∧ stT2.spawns = [] :=
  c9_dry_run_outcomes cfgT 3 ["a.png", "b.png"] stT2 rfl reach_T2 ⟨rfl, rfl⟩

end WebpConv
